import Mathlib

/-!
Shallow embedding of the Simon game firmware
(src/00_Software/SimonGame_V1_4/SimonGame_V1_4.ino).

The sketch is a five-state game loop over global mutable variables
(sequence, sequenceLength, userInputIndex, gameState, lastButtonPress,
plus the statics previousMillis / ledState of waitForStartButton).
We model the globals as a record GameSt and each loop() iteration as a
pure step function loopTick.  The Arduino environment is abstracted as:
  - rng : Nat → Fin 4       the stream of values produced by random(0, 4),
                            consumed at position rngPos;
  - btn : Nat → Nat → Bool  btn t i is true iff digitalRead(BUTTON_PINS[i])
                            reads LOW (pressed) at millisecond t;
  - now : Nat               the value of millis() at the head of the tick;
  - fuel : Nat              a bound on the busy-wait loops (the do/while in
                            addToSequence and the wait-for-release loops);
                            a step returns none when the bound is exhausted.
Hardware side effects (digitalWrite, tone, noTone, delay) are modelled as
event lists of type Ev where the claims need them.
-/

/-- The GameState enum of the sketch (lines 26-32). -/
inductive GameState where
  | WELCOME
  | WAIT_FOR_START
  | PLAY_SEQUENCE
  | USER_INPUT
  | GAME_OVER
deriving DecidableEq, Repr

/-- Hardware effects: LED writes, tone(freq, dur), noTone, delay(ms). -/
inductive Ev where
  | ledOn (i : Nat)
  | ledOff (i : Nat)
  | toneEv (freq dur : Nat)
  | noToneEv
  | delayEv (ms : Nat)
deriving DecidableEq, Repr

/-- Maximum sequence length (line 20). -/
def MAX_SEQUENCE : Nat := 100

/-- Minimum time between accepted button presses in ms (line 37). -/
def debounceDelay : Nat := 200

/-- Tone frequency for each color (line 17). -/
def TONES : List Nat := [310, 209, 415, 252]

/-- Blink interval of the start LED in waitForStartButton (line 241). -/
def blinkInterval : Nat := 300

/-- The global mutable state of the sketch: the four game variables
(lines 21-23, 33, 36) and the two static locals of waitForStartButton
(lines 240, 242), plus the read position rngPos into the random stream. -/
structure GameSt where
  sequence : List Nat
  sequenceLength : Nat
  userInputIndex : Nat
  gameState : GameState
  lastButtonPress : Nat
  prevMillis : Nat
  ledState : Bool
  rngPos : Nat
deriving DecidableEq, Repr

/-- State at power-up: globals zero-initialised, gameState = WELCOME. -/
def initialState : GameSt :=
  { sequence := List.replicate MAX_SEQUENCE 0
    sequenceLength := 0
    userInputIndex := 0
    gameState := GameState.WELCOME
    lastButtonPress := 0
    prevMillis := 0
    ledState := false
    rngPos := 0 }

/-- The do/while loop of addToSequence (lines 116-118): draw random(0,4);
redraw while the sequence is empty and the draw equals 2 (green).
Fuel-bounded; returns the drawn color and the next stream position. -/
def drawColor (rng : Nat → Fin 4) (isFirst : Bool) : Nat → Nat → Option (Fin 4 × Nat)
  | 0, _ => none
  | fuel + 1, pos =>
    if isFirst && (rng pos).val == 2 then drawColor rng isFirst fuel (pos + 1)
    else some (rng pos, pos + 1)

/-- addToSequence (lines 113-122): when sequenceLength < MAX_SEQUENCE,
draw a color (never green for the first element) and append it;
otherwise do nothing. -/
def addToSequence (rng : Nat → Fin 4) (fuel : Nat) (st : GameSt) : Option GameSt :=
  if st.sequenceLength < MAX_SEQUENCE then
    match drawColor rng (st.sequenceLength == 0) fuel st.rngPos with
    | none => none
    | some (c, pos') =>
      some { st with
              sequence := st.sequence.set st.sequenceLength c.val
              sequenceLength := st.sequenceLength + 1
              rngPos := pos' }
  else some st

/-- playColor (lines 139-147): LED on, tone for 500 ms, delay 500 ms, LED off. -/
def playColorEvents (index : Nat) : List Ev :=
  [Ev.ledOn index, Ev.toneEv (TONES.getD index 0) 500, Ev.delayEv 500, Ev.ledOff index]

/-- playSequence (lines 128-133): play each stored color, 300 ms pause after each. -/
def playSequenceEvents (st : GameSt) : List Ev :=
  (List.range st.sequenceLength).flatMap
    (fun i => playColorEvents (st.sequence.getD i 0) ++ [Ev.delayEv 300])

/-- gameOver animation (lines 180-198): 300 ms wait, three all-LED flashes with a
100 Hz tone, then a 1000 ms pause.  Only LEDs and the buzzer are written. -/
def gameOverEvents : List Ev :=
  [Ev.delayEv 300] ++
  (List.range 3).flatMap
    (fun _ => [Ev.toneEv 100 200] ++ (List.range 4).map Ev.ledOn ++
      [Ev.delayEv 200, Ev.noToneEv] ++ (List.range 4).map Ev.ledOff ++ [Ev.delayEv 200]) ++
  [Ev.delayEv 1000]

/-- welcomeSequence (lines 204-232): two cascades then four synchronized flashes. -/
def welcomeEvents : List Ev :=
  (List.range 2).flatMap
    (fun _ => (List.range 4).flatMap
      (fun i => [Ev.ledOn i, Ev.toneEv (TONES.getD i 0) 150, Ev.delayEv 150,
                 Ev.ledOff i, Ev.noToneEv, Ev.delayEv 100])) ++
  (List.range 4).flatMap
    (fun _ => (List.range 4).map Ev.ledOn ++ [Ev.toneEv 400 150, Ev.delayEv 150, Ev.noToneEv] ++
      (List.range 4).map Ev.ledOff ++ [Ev.delayEv 150])

/-- The body of the USER_INPUT case for an accepted input (lines 84-96):
play the pressed color's feedback; on mismatch go to GAME_OVER, otherwise
advance the cursor, and on completing the sequence pause 1000 ms and go
back to PLAY_SEQUENCE.  Returns the new state and the emitted events. -/
def uiStep (st : GameSt) (input : Nat) : GameSt × List Ev :=
  if input ≠ st.sequence.getD st.userInputIndex 0 then
    ({ st with gameState := GameState.GAME_OVER }, playColorEvents input)
  else
    if st.userInputIndex + 1 ≥ st.sequenceLength then
      ({ st with userInputIndex := st.userInputIndex + 1
                 gameState := GameState.PLAY_SEQUENCE },
       playColorEvents input ++ [Ev.delayEv 1000])
    else
      ({ st with userInputIndex := st.userInputIndex + 1 }, playColorEvents input)

/-- Iterating the USER_INPUT case over a scripted stream of accepted inputs:
each input is consumed only while the machine is still in USER_INPUT;
remaining scripted inputs are ignored once the state is left. -/
def runUI : GameSt → List Nat → GameSt
  | st, [] => st
  | st, i :: rest =>
    if st.gameState = GameState.USER_INPUT then runUI (uiStep st i).1 rest else st

/-- Same as runUI but returning every state visited (including the last). -/
def runUIStates : GameSt → List Nat → List GameSt
  | st, [] => [st]
  | st, i :: rest =>
    if st.gameState = GameState.USER_INPUT then st :: runUIStates (uiStep st i).1 rest
    else [st]

/-- The wait-for-release busy loop (lines 166-168 and 255-257):
re-sample every 10 ms until the button reads released; fuel-bounded.
Returns the time of the first released sample. -/
def waitRelease (press : Nat → Bool) : Nat → Nat → Option Nat
  | 0, _ => none
  | fuel + 1, t => if press t then waitRelease press fuel (t + 10) else some t

/-- readButton (lines 154-174): if less than debounceDelay elapsed since the
last accepted press, return no event; otherwise scan buttons 0..3 in order,
and on a pressed one record the press time and busy-wait until release.
Result: (returned index or none, new lastButtonPress, return time). -/
def readButton (btn : Nat → Nat → Bool) (fuel : Nat) (now last : Nat) :
    Option (Option Nat × Nat × Nat) :=
  if now - last < debounceDelay then some (none, last, now)
  else
    match [0, 1, 2, 3].find? (fun i => btn now i) with
    | some i =>
      match waitRelease (fun t => btn t i) fuel now with
      | some t' => some (some i, now, t')
      | none => none
    | none => some (none, last, now)

/-- waitForStartButton (lines 239-262): toggle the start LED when at least
blinkInterval elapsed since the stored last-toggle timestamp; then, if the
start button (index 2) reads pressed, busy-wait for release and report true.
Result: (pressed, new previousMillis, new ledState, return time). -/
def waitForStartButton (btn : Nat → Nat → Bool) (fuel : Nat) (now prev : Nat) (led : Bool) :
    Option (Bool × Nat × Bool × Nat) :=
  if btn now 2 then
    match waitRelease (fun t => btn t 2) fuel now with
    | some t' => some (true, (if now - prev ≥ blinkInterval then now else prev),
                       (if now - prev ≥ blinkInterval then !led else led), t')
    | none => none
  else some (false, (if now - prev ≥ blinkInterval then now else prev),
             (if now - prev ≥ blinkInterval then !led else led), now)

/-- One iteration of loop() (lines 56-106). -/
def loopTick (rng : Nat → Fin 4) (btn : Nat → Nat → Bool) (fuel now : Nat) (st : GameSt) :
    Option GameSt :=
  match st.gameState with
  | GameState.WELCOME => some { st with gameState := GameState.WAIT_FOR_START }
  | GameState.WAIT_FOR_START =>
    match waitForStartButton btn fuel now st.prevMillis st.ledState with
    | none => none
    | some (pressed, prev', led', _) =>
      if pressed then
        some { st with prevMillis := prev', ledState := led'
                       sequenceLength := 0, gameState := GameState.PLAY_SEQUENCE }
      else
        some { st with prevMillis := prev', ledState := led' }
  | GameState.PLAY_SEQUENCE =>
    match addToSequence rng fuel st with
    | none => none
    | some st1 =>
      some { st1 with userInputIndex := 0, lastButtonPress := now
                      gameState := GameState.USER_INPUT }
  | GameState.USER_INPUT =>
    match readButton btn fuel now st.lastButtonPress with
    | none => none
    | some (res, last', _) =>
      match res with
      | none => some { st with lastButtonPress := last' }
      | some i => some (uiStep { st with lastButtonPress := last' } i).1
  | GameState.GAME_OVER => some { st with gameState := GameState.WAIT_FOR_START }

/-- One full round cycle starting at PLAY_SEQUENCE, played by a perfect
player: append a color, play the sequence back, then feed the machine a
scripted input stream that matches the stored sequence exactly. -/
def playCycle (rng : Nat → Fin 4) (fuel now : Nat) (st : GameSt) : Option GameSt :=
  match addToSequence rng fuel st with
  | none => none
  | some st1 =>
    let st2 := { st1 with userInputIndex := 0, lastButtonPress := now
                          gameState := GameState.USER_INPUT }
    some (runUI st2
      ((List.range' st2.userInputIndex st2.sequenceLength).map (fun i => st2.sequence.getD i 0)))

/-- All states visited during playCycle. -/
def playCycleStates (rng : Nat → Fin 4) (fuel now : Nat) (st : GameSt) : List GameSt :=
  match addToSequence rng fuel st with
  | none => [st]
  | some st1 =>
    let st2 := { st1 with userInputIndex := 0, lastButtonPress := now
                          gameState := GameState.USER_INPUT }
    st :: runUIStates st2
      ((List.range' st2.userInputIndex st2.sequenceLength).map (fun i => st2.sequence.getD i 0))

/-- The LED-toggle recurrence of waitForStartButton (lines 246-251) iterated
over a list of polling-tick times: a tick toggles exactly when at least
blinkInterval elapsed since the stored last-toggle timestamp.  Returns the
list of tick times at which a toggle happened. -/
def blinkRun : List Nat → Nat → Bool → List Nat
  | [], _, _ => []
  | t :: ts, prev, led =>
    if t - prev ≥ blinkInterval then t :: blinkRun ts t (!led)
    else blinkRun ts prev led

/-- States reachable from power-up by iterating loop() under arbitrary
environments (button traces, clock readings, random stream, fuel). -/
inductive Reachable : GameSt → Prop where
  | init : Reachable initialState
  | step (rng : Nat → Fin 4) (btn : Nat → Nat → Bool) (fuel now : Nat) {st st' : GameSt} :
      Reachable st → loopTick rng btn fuel now st = some st' → Reachable st'

/-- The state invariant maintained by every loop() iteration: the stored
length never exceeds the array capacity, the array keeps its allocated
size, and in USER_INPUT the cursor is a valid index into the sequence. -/
def GameInv (st : GameSt) : Prop :=
  st.sequenceLength ≤ MAX_SEQUENCE ∧ st.sequence.length = MAX_SEQUENCE ∧
    (st.gameState = GameState.USER_INPUT → st.userInputIndex < st.sequenceLength)

/-- A random stream that always draws color 0. -/
def wrng : Nat → Fin 4 := fun _ => 0

/-- A random stream whose first draw is the excluded color 2, then 1. -/
def wrng21 : Nat → Fin 4 := fun p => if p = 0 then 2 else 1

/-- Buttons pressed only at millisecond 0 (used to accept the start press). -/
def btnStart : Nat → Nat → Bool := fun t _ => t == 0

/-- Buttons held from time 0 through 200 and released afterwards. -/
def btnHeld : Nat → Nat → Bool := fun t _ => t ≤ 200

/-- The state right after the start press is accepted: sequence reset,
about to build and play the first sequence. -/
def startSt : GameSt := { initialState with gameState := GameState.PLAY_SEQUENCE }

/-- The state after the WELCOME tick. -/
def stWS : GameSt := { initialState with gameState := GameState.WAIT_FOR_START }

/-- The state reached from startSt by one PLAY_SEQUENCE tick under wrng:
one stored color (0), cursor reset, waiting for user input. -/
def stR : GameSt :=
  { sequence := List.replicate MAX_SEQUENCE 0
    sequenceLength := 1
    userInputIndex := 0
    gameState := GameState.USER_INPUT
    lastButtonPress := 0
    prevMillis := 0
    ledState := false
    rngPos := 1 }

/-- A USER_INPUT state with two stored colors 0, 1 and the cursor at 0. -/
def stUI2 : GameSt :=
  { sequence := 0 :: 1 :: List.replicate 98 0
    sequenceLength := 2
    userInputIndex := 0
    gameState := GameState.USER_INPUT
    lastButtonPress := 0
    prevMillis := 0
    ledState := false
    rngPos := 2 }

/-- A PLAY_SEQUENCE state whose round is already at the capacity cap. -/
def stCap : GameSt :=
  { sequence := List.replicate MAX_SEQUENCE 0
    sequenceLength := MAX_SEQUENCE
    userInputIndex := 0
    gameState := GameState.PLAY_SEQUENCE
    lastButtonPress := 0
    prevMillis := 0
    ledState := false
    rngPos := 0 }

/-- The machine state after n perfect cycles from startSt under wrng:
n stored zeros, cursor and stream position at n, back in PLAY_SEQUENCE. -/
def cfgCycle (n : Nat) : GameSt :=
  { sequence := List.replicate MAX_SEQUENCE 0
    sequenceLength := n
    userInputIndex := n
    gameState := GameState.PLAY_SEQUENCE
    lastButtonPress := 0
    prevMillis := 0
    ledState := false
    rngPos := n }

/-- n perfect cycles from startSt. -/
def iterCycles (rng : Nat → Fin 4) (fuel now : Nat) : Nat → Option GameSt
  | 0 => some startSt
  | n + 1 =>
    match iterCycles rng fuel now n with
    | none => none
    | some st => playCycle rng fuel now st

/-- Recognizer for delay events. -/
def Ev.isDelay : Ev → Bool
  | Ev.delayEv _ => true
  | _ => false

/-- The result of building the first sequence element under wrng21. -/
def stW : GameSt :=
  { initialState with
      sequence := (List.replicate MAX_SEQUENCE 0).set 0 1
      sequenceLength := 1
      rngPos := 2 }

/-- The state after a PLAY_SEQUENCE tick at the cap (time 0). -/
def stCapUI : GameSt := { stCap with gameState := GameState.USER_INPUT }

/-- Buttons pressed exactly at milliseconds 300 and 600. -/
def btn5 : Nat → Nat → Bool := fun t _ => t == 300 || t == 600

/-- A GAME_OVER state holding one stored color. -/
def stGO : GameSt := { stR with gameState := GameState.GAME_OVER }

/-- A WAIT_FOR_START state still holding the previous round's sequence. -/
def stWS1 : GameSt := { stR with gameState := GameState.WAIT_FOR_START }

/-- The state after the start press is accepted from stWS1. -/
def stPS0 : GameSt := { stR with sequenceLength := 0, gameState := GameState.PLAY_SEQUENCE }

/-! Helper lemmas about uiStep and runUI. -/

/-- A matching input that does not yet complete the sequence advances the cursor. -/
theorem uiStep_match_adv {st : GameSt} (h : st.userInputIndex + 1 < st.sequenceLength) :
    uiStep st (st.sequence.getD st.userInputIndex 0) =
      ({ st with userInputIndex := st.userInputIndex + 1 },
        playColorEvents (st.sequence.getD st.userInputIndex 0)) := by
  unfold uiStep
  simp [Nat.not_le.mpr h]

/-- A matching input that completes the sequence pauses 1000 ms and returns
to PLAY_SEQUENCE. -/
theorem uiStep_match_done {st : GameSt} (h : st.sequenceLength ≤ st.userInputIndex + 1) :
    uiStep st (st.sequence.getD st.userInputIndex 0) =
      ({ st with userInputIndex := st.userInputIndex + 1
                 gameState := GameState.PLAY_SEQUENCE },
        playColorEvents (st.sequence.getD st.userInputIndex 0) ++ [Ev.delayEv 1000]) := by
  unfold uiStep
  simp [h]

/-- A mismatching input moves the machine to GAME_OVER after its feedback. -/
theorem uiStep_mismatch {st : GameSt} {input : Nat}
    (h : input ≠ st.sequence.getD st.userInputIndex 0) :
    uiStep st input = ({ st with gameState := GameState.GAME_OVER }, playColorEvents input) := by
  unfold uiStep
  rw [if_pos h]

/-- Outside USER_INPUT, the scripted run consumes nothing. -/
theorem runUI_stop {st : GameSt} (h : st.gameState ≠ GameState.USER_INPUT)
    (inputs : List Nat) : runUI st inputs = st := by
  cases inputs with
  | nil => rfl
  | cons i rest => simp [runUI, h]

/-- The scripted run splits across list append. -/
theorem runUI_append (a : List Nat) :
    ∀ (b : List Nat) (st : GameSt), runUI st (a ++ b) = runUI (runUI st a) b := by
  induction a with
  | nil => intro b st; rfl
  | cons i rest ih =>
    intro b st
    by_cases h : st.gameState = GameState.USER_INPUT
    · simp only [List.cons_append, runUI, if_pos h]
      exact ih b _
    · simp only [List.cons_append, runUI, if_neg h]
      exact (runUI_stop h b).symm

/-- Feeding m correct inputs that do not yet finish the sequence advances
the cursor by m and stays in USER_INPUT. -/
theorem runUI_match_lt :
    ∀ (m : Nat) (st : GameSt), st.gameState = GameState.USER_INPUT →
      st.userInputIndex + m < st.sequenceLength →
      runUI st ((List.range' st.userInputIndex m).map (fun i => st.sequence.getD i 0)) =
        { st with userInputIndex := st.userInputIndex + m } := by
  intro m
  induction m with
  | zero => intro st h _; rfl
  | succ m ih =>
    intro st h hlt
    rw [List.range'_succ]
    simp only [List.map_cons, runUI, if_pos h]
    rw [uiStep_match_adv (by omega)]
    have hih := ih { st with userInputIndex := st.userInputIndex + 1 } h (by simp; omega)
    dsimp only at hih
    rw [hih]
    have : st.userInputIndex + 1 + m = st.userInputIndex + (m + 1) := by omega
    rw [this]

/-- Feeding exactly the remaining correct inputs completes the sequence:
the cursor reaches sequenceLength and the machine returns to PLAY_SEQUENCE. -/
theorem runUI_match :
    ∀ (m : Nat), 0 < m → ∀ (st : GameSt), st.gameState = GameState.USER_INPUT →
      st.userInputIndex + m = st.sequenceLength →
      runUI st ((List.range' st.userInputIndex m).map (fun i => st.sequence.getD i 0)) =
        { st with userInputIndex := st.sequenceLength
                  gameState := GameState.PLAY_SEQUENCE } := by
  intro m
  induction m with
  | zero => intro h0; simp at h0
  | succ m ih =>
    intro _ st h heq
    rw [List.range'_succ]
    simp only [List.map_cons, runUI, if_pos h]
    rcases Nat.eq_zero_or_pos m with hm | hm
    · subst hm
      rw [uiStep_match_done (by omega)]
      simp only [List.range', List.map_nil, runUI]
      rw [show st.userInputIndex + 1 = st.sequenceLength by omega]
    · rw [uiStep_match_adv (by omega)]
      have hih := ih hm { st with userInputIndex := st.userInputIndex + 1 } h (by simp; omega)
      dsimp only at hih
      rw [hih]

/-- Along a run fed with exactly the remaining correct inputs, every visited
state is in USER_INPUT or PLAY_SEQUENCE (never GAME_OVER). -/
theorem runUIStates_match :
    ∀ (m : Nat) (st : GameSt), st.gameState = GameState.USER_INPUT →
      st.userInputIndex + m = st.sequenceLength →
      ∀ s ∈ runUIStates st ((List.range' st.userInputIndex m).map (fun i => st.sequence.getD i 0)),
        s.gameState = GameState.USER_INPUT ∨ s.gameState = GameState.PLAY_SEQUENCE := by
  intro m
  induction m with
  | zero =>
    intro st h _ s hs
    simp only [List.range', List.map_nil, runUIStates, List.mem_singleton] at hs
    subst hs
    exact Or.inl h
  | succ m ih =>
    intro st h heq s hs
    rw [List.range'_succ] at hs
    simp only [List.map_cons, runUIStates, if_pos h, List.mem_cons] at hs
    rcases hs with rfl | hs
    · exact Or.inl h
    · rcases Nat.eq_zero_or_pos m with hm | hm
      · subst hm
        rw [uiStep_match_done (by omega)] at hs
        simp only [List.range', List.map_nil, runUIStates, List.mem_singleton] at hs
        subst hs
        exact Or.inr rfl
      · rw [uiStep_match_adv (by omega)] at hs
        have hih := ih { st with userInputIndex := st.userInputIndex + 1 } h (by simp; omega)
        dsimp only at hih
        exact hih s hs

/-- Below capacity, a successful addToSequence appends the drawn color. -/
theorem addToSequence_lt {rng : Nat → Fin 4} {fuel : Nat} {st st' : GameSt}
    (h : st.sequenceLength < MAX_SEQUENCE) (he : addToSequence rng fuel st = some st') :
    ∃ c pos', drawColor rng (st.sequenceLength == 0) fuel st.rngPos = some (c, pos') ∧
      st' = { st with sequence := st.sequence.set st.sequenceLength c.val
                      sequenceLength := st.sequenceLength + 1
                      rngPos := pos' } := by
  unfold addToSequence at he
  rw [if_pos h] at he
  cases hd : drawColor rng (st.sequenceLength == 0) fuel st.rngPos with
  | none => rw [hd] at he; simp at he
  | some cp =>
    obtain ⟨c, pos'⟩ := cp
    rw [hd] at he
    simp only [Option.some.injEq] at he
    exact ⟨c, pos', rfl, he.symm⟩

/-- At capacity, addToSequence changes nothing. -/
theorem addToSequence_cap {rng : Nat → Fin 4} {fuel : Nat} {st : GameSt}
    (h : ¬ st.sequenceLength < MAX_SEQUENCE) : addToSequence rng fuel st = some st := by
  unfold addToSequence
  rw [if_neg h]

/-- The do/while for the first element never returns the excluded color 2. -/
theorem drawColor_first_ne :
    ∀ (rng : Nat → Fin 4) (fuel pos : Nat) {c : Fin 4} {pos' : Nat},
      drawColor rng true fuel pos = some (c, pos') → c.val ≠ 2 := by
  intro rng fuel
  induction fuel with
  | zero => intro pos c pos' h; simp [drawColor] at h
  | succ fuel ih =>
    intro pos c pos' h
    unfold drawColor at h
    rw [Bool.true_and] at h
    by_cases hc : ((rng pos).val == 2) = true
    · rw [if_pos hc] at h
      exact ih _ h
    · rw [if_neg hc] at h
      simp only [Option.some.injEq, Prod.mk.injEq] at h
      rw [← h.1]
      simpa using hc

/-- With a nonempty sequence the loop body runs exactly once: the first draw
is taken unchanged, whatever its value, and one stream position is consumed. -/
theorem drawColor_subsequent (rng : Nat → Fin 4) (fuel pos : Nat) :
    drawColor rng false (fuel + 1) pos = some (rng pos, pos + 1) := by
  simp [drawColor]

/-- A released sample is required before waitRelease returns: the returned
time reads released and is not before the entry time. -/
theorem waitRelease_released {press : Nat → Bool} :
    ∀ (fuel t r : Nat), waitRelease press fuel t = some r → press r = false ∧ t ≤ r := by
  intro fuel
  induction fuel with
  | zero => intro t r h; simp [waitRelease] at h
  | succ fuel ih =>
    intro t r h
    unfold waitRelease at h
    by_cases hp : press t = true
    · rw [if_pos hp] at h
      have := ih _ _ h
      exact ⟨this.1, by omega⟩
    · rw [if_neg hp] at h
      simp only [Option.some.injEq] at h
      subst h
      exact ⟨Bool.eq_false_iff.mpr hp, Nat.le_refl _⟩

/-- Within the debounce window, readButton reports nothing and changes nothing. -/
theorem readButton_debounce {btn : Nat → Nat → Bool} {fuel now last : Nat}
    (h : now - last < debounceDelay) :
    readButton btn fuel now last = some (none, last, now) := by
  unfold readButton
  rw [if_pos h]

/-- An accepted press implies the debounce window had elapsed, the press time
is recorded as the new lastButtonPress, and the release wait succeeded. -/
theorem readButton_accept {btn : Nat → Nat → Bool} {fuel now last : Nat}
    {i last' t' : Nat}
    (h : readButton btn fuel now last = some (some i, last', t')) :
    debounceDelay ≤ now - last ∧ last' = now ∧
      waitRelease (fun t => btn t i) fuel now = some t' := by
  unfold readButton at h
  split at h
  · simp at h
  · rename_i hd
    split at h
    · rename_i j hf
      split at h
      · rename_i r hw
        simp only [Option.some.injEq, Prod.mk.injEq] at h
        obtain ⟨hj, hl, hr⟩ := h
        subst hj
        subst hl
        subst hr
        exact ⟨Nat.not_lt.mp hd, rfl, hw⟩
      · simp at h
    · simp at h

/-- With the start button unpressed, a WAIT_FOR_START poll performs exactly
the stored-timestamp toggle of lines 246-251 and reports no press. -/
theorem waitForStartButton_tick {btn : Nat → Nat → Bool} {fuel t prev : Nat} {led : Bool}
    (hb : btn t 2 = false) :
    waitForStartButton btn fuel t prev led =
      some (false, (if t - prev ≥ blinkInterval then t else prev),
            (if t - prev ≥ blinkInterval then !led else led), t) := by
  unfold waitForStartButton
  rw [if_neg (by simp [hb])]

/-- Consecutive blink toggles are spaced at least blinkInterval apart
(counting from the stored timestamp). -/
theorem blinkRun_chain :
    ∀ (ticks : List Nat) (prev : Nat) (led : Bool),
      List.Chain' (fun a b => a + blinkInterval ≤ b) (prev :: blinkRun ticks prev led) := by
  intro ticks
  induction ticks with
  | nil => intro prev led; simp [blinkRun]
  | cons t ts ih =>
    intro prev led
    simp only [blinkRun]
    by_cases h : t - prev ≥ blinkInterval
    · rw [if_pos h]
      have hbi : blinkInterval = 300 := rfl
      exact List.chain'_cons.mpr ⟨by omega, ih t (!led)⟩
    · rw [if_neg h]
      exact ih prev led

/-- Over a window of T ms after the stored timestamp, at most T / blinkInterval
toggles can happen, whatever the polling schedule. -/
theorem blinkRun_count :
    ∀ (ticks : List Nat) (prev : Nat) (led : Bool) (T : Nat),
      (∀ t ∈ ticks, t ≤ prev + T) →
      (blinkRun ticks prev led).length * blinkInterval ≤ T := by
  intro ticks
  induction ticks with
  | nil => intro prev led T _; simp [blinkRun]
  | cons t ts ih =>
    intro prev led T hT
    have hbi : blinkInterval = 300 := rfl
    simp only [blinkRun]
    by_cases h : t - prev ≥ blinkInterval
    · rw [if_pos h]
      have ht : t ≤ prev + T := hT t (List.mem_cons_self _ _)
      have hts : ∀ s ∈ ts, s ≤ t + (T - blinkInterval) := by
        intro s hs
        have := hT s (List.mem_cons_of_mem _ hs)
        omega
      have hrec := ih t (!led) (T - blinkInterval) hts
      simp only [List.length_cons]
      rw [hbi] at hrec ⊢
      omega
    · rw [if_neg h]
      exact ih prev led T (fun s hs => hT s (List.mem_cons_of_mem _ hs))

/-- Every loop() iteration preserves the state invariant. -/
theorem gameInv_step {st st' : GameSt} (rng : Nat → Fin 4) (btn : Nat → Nat → Bool)
    (fuel now : Nat) (hinv : GameInv st) (h : loopTick rng btn fuel now st = some st') :
    GameInv st' := by
  obtain ⟨h1, h2, h3⟩ := hinv
  unfold loopTick at h
  split at h
  · -- WELCOME
    simp only [Option.some.injEq] at h
    subst h
    exact ⟨h1, h2, fun hc => by simp at hc⟩
  · -- WAIT_FOR_START
    split at h
    · exact absurd h (by simp)
    · split at h
      · simp only [Option.some.injEq] at h
        subst h
        exact ⟨Nat.zero_le _, h2, fun hc => by simp at hc⟩
      · simp only [Option.some.injEq] at h
        subst h
        refine ⟨h1, h2, fun hc => ?_⟩
        simp only [] at hc
        exact h3 hc
  · -- PLAY_SEQUENCE
    split at h
    · exact absurd h (by simp)
    · rename_i st1 hadd
      simp only [Option.some.injEq] at h
      subst h
      by_cases hlen : st.sequenceLength < MAX_SEQUENCE
      · obtain ⟨c, pos', _, rfl⟩ := addToSequence_lt hlen hadd
        refine ⟨hlen, ?_, fun _ => Nat.succ_pos _⟩
        simpa [List.length_set] using h2
      · have hcap := @addToSequence_cap rng fuel st hlen
        rw [hadd] at hcap
        obtain rfl : st1 = st := Option.some.inj hcap
        have hm : MAX_SEQUENCE = 100 := rfl
        exact ⟨h1, h2, fun _ => by dsimp only; omega⟩
  · -- USER_INPUT
    split at h
    · exact absurd h (by simp)
    · split at h
      · simp only [Option.some.injEq] at h
        subst h
        exact ⟨h1, h2, h3⟩
      · simp only [Option.some.injEq] at h
        subst h
        unfold uiStep
        split
        · exact ⟨h1, h2, fun hc => by simp at hc⟩
        · split
          · exact ⟨h1, h2, fun hc => by simp at hc⟩
          · rename_i hdone
            exact ⟨h1, h2, fun _ => Nat.not_le.mp hdone⟩
  · -- GAME_OVER
    simp only [Option.some.injEq] at h
    subst h
    exact ⟨h1, h2, fun hc => by simp at hc⟩

/-- The invariant holds in every reachable state. -/
theorem reachable_gameInv {st : GameSt} (h : Reachable st) : GameInv st := by
  induction h with
  | init => exact ⟨Nat.zero_le _, by simp [initialState], fun hc => absurd hc (by decide)⟩
  | step rng btn fuel now hr heq ih => exact gameInv_step rng btn fuel now ih heq

/-- loopTick reduction at WELCOME. -/
theorem loopTick_welcome {rng : Nat → Fin 4} {btn : Nat → Nat → Bool} {fuel now : Nat}
    {st : GameSt} (hgs : st.gameState = GameState.WELCOME) :
    loopTick rng btn fuel now st = some { st with gameState := GameState.WAIT_FOR_START } := by
  unfold loopTick
  rw [hgs]

/-- loopTick reduction at WAIT_FOR_START. -/
theorem loopTick_wait {rng : Nat → Fin 4} {btn : Nat → Nat → Bool} {fuel now : Nat}
    {st : GameSt} (hgs : st.gameState = GameState.WAIT_FOR_START) :
    loopTick rng btn fuel now st =
      match waitForStartButton btn fuel now st.prevMillis st.ledState with
      | none => none
      | some (pressed, prev', led', _) =>
        if pressed then
          some { st with prevMillis := prev', ledState := led'
                         sequenceLength := 0, gameState := GameState.PLAY_SEQUENCE }
        else
          some { st with prevMillis := prev', ledState := led' } := by
  unfold loopTick
  rw [hgs]

/-- loopTick reduction at PLAY_SEQUENCE. -/
theorem loopTick_play {rng : Nat → Fin 4} {btn : Nat → Nat → Bool} {fuel now : Nat}
    {st : GameSt} (hgs : st.gameState = GameState.PLAY_SEQUENCE) :
    loopTick rng btn fuel now st =
      match addToSequence rng fuel st with
      | none => none
      | some st1 =>
        some { st1 with userInputIndex := 0, lastButtonPress := now
                        gameState := GameState.USER_INPUT } := by
  unfold loopTick
  rw [hgs]

/-- loopTick reduction at USER_INPUT. -/
theorem loopTick_ui {rng : Nat → Fin 4} {btn : Nat → Nat → Bool} {fuel now : Nat}
    {st : GameSt} (hgs : st.gameState = GameState.USER_INPUT) :
    loopTick rng btn fuel now st =
      match readButton btn fuel now st.lastButtonPress with
      | none => none
      | some (res, last', _) =>
        match res with
        | none => some { st with lastButtonPress := last' }
        | some i => some (uiStep { st with lastButtonPress := last' } i).1 := by
  unfold loopTick
  rw [hgs]

/-- loopTick reduction at GAME_OVER. -/
theorem loopTick_gameover {rng : Nat → Fin 4} {btn : Nat → Nat → Bool} {fuel now : Nat}
    {st : GameSt} (hgs : st.gameState = GameState.GAME_OVER) :
    loopTick rng btn fuel now st = some { st with gameState := GameState.WAIT_FOR_START } := by
  unfold loopTick
  rw [hgs]

/-- uiStep never changes the stored length. -/
theorem uiStep_fst_sequenceLength (st : GameSt) (input : Nat) :
    (uiStep st input).1.sequenceLength = st.sequenceLength := by
  unfold uiStep
  split
  · rfl
  · split
    · rfl
    · rfl

/-- uiStep never changes the stored sequence. -/
theorem uiStep_fst_sequence (st : GameSt) (input : Nat) :
    (uiStep st input).1.sequence = st.sequence := by
  unfold uiStep
  split
  · rfl
  · split
    · rfl
    · rfl

/-- C3: for a freshly-started (empty) Sequence, addToSequence redraws while
the draw equals the start channel 2, so the first appended element is never
2; with a nonempty Sequence the first draw is appended unchanged, whatever
its value, consuming exactly one draw (no exclusion). -/
theorem c3_first_element_excluded (rng : Nat → Fin 4) (fuel : Nat) :
    (∀ st st', st.sequenceLength = 0 → 0 < st.sequence.length →
      addToSequence rng fuel st = some st' →
      st'.sequence.getD 0 0 ≠ 2 ∧ st'.sequenceLength = 1) ∧
    (∀ st, 0 < st.sequenceLength → st.sequenceLength < MAX_SEQUENCE →
      addToSequence rng (fuel + 1) st =
        some { st with
                sequence := st.sequence.set st.sequenceLength (rng st.rngPos).val
                sequenceLength := st.sequenceLength + 1
                rngPos := st.rngPos + 1 }) := by
  constructor
  · intro st st' h0 hlen he
    have hlt : st.sequenceLength < MAX_SEQUENCE := by
      rw [h0]; decide
    obtain ⟨c, pos', hd, rfl⟩ := addToSequence_lt hlt he
    rw [h0] at hd
    have hc2 : c.val ≠ 2 := drawColor_first_ne rng fuel st.rngPos hd
    constructor
    · dsimp only
      rw [h0]
      cases hseq : st.sequence with
      | nil => rw [hseq] at hlen; simp at hlen
      | cons a t => simpa using hc2
    · dsimp only
      rw [h0]
  · intro st hpos hlt
    unfold addToSequence
    rw [if_pos hlt]
    have h0 : (st.sequenceLength == 0) = false := by
      simp only [beq_eq_false_iff_ne]
      omega
    rw [h0, drawColor_subsequent]

/-- C3 witness: from the empty initial state with first draw 2 then 1, the
first stored element is 1 (not 2); from a length-1 state the next append
takes the first draw unchanged. -/
theorem c3_first_element_excluded_witness :
    (stW.sequence.getD 0 0 ≠ 2 ∧ stW.sequenceLength = 1) ∧
    addToSequence wrng 1 stW =
      some { stW with
              sequence := stW.sequence.set stW.sequenceLength (wrng stW.rngPos).val
              sequenceLength := stW.sequenceLength + 1
              rngPos := stW.rngPos + 1 } :=
  ⟨(c3_first_element_excluded wrng21 2).1 initialState stW rfl (by decide) (by decide),
   (c3_first_element_excluded wrng 0).2 stW (by decide) (by decide)⟩

/-- C4: every reachable state keeps sequenceLength at most MAX_SEQUENCE; at
the cap, addToSequence leaves the whole state (length and array) unchanged,
and a PLAY_SEQUENCE tick still moves on to USER_INPUT with the capped
length and untouched array. -/
theorem c4_sequence_cap :
    (∀ st, Reachable st → st.sequenceLength ≤ MAX_SEQUENCE) ∧
    (∀ (rng : Nat → Fin 4) (fuel : Nat) (st : GameSt),
      st.sequenceLength = MAX_SEQUENCE → addToSequence rng fuel st = some st) ∧
    (∀ (rng : Nat → Fin 4) (btn : Nat → Nat → Bool) (fuel now : Nat) (st st' : GameSt),
      st.gameState = GameState.PLAY_SEQUENCE → st.sequenceLength = MAX_SEQUENCE →
      loopTick rng btn fuel now st = some st' →
      st'.gameState = GameState.USER_INPUT ∧ st'.sequenceLength = MAX_SEQUENCE ∧
      st'.sequence = st.sequence) := by
  refine ⟨fun st h => (reachable_gameInv h).1, ?_, ?_⟩
  · intro rng fuel st hcap
    exact addToSequence_cap (by omega)
  · intro rng btn fuel now st st' hgs hcap h
    rw [loopTick_play hgs] at h
    cases hadd : addToSequence rng fuel st with
    | none => rw [hadd] at h; exact absurd h (by simp)
    | some st1 =>
      rw [hadd] at h
      have hcap' := @addToSequence_cap rng fuel st (by omega)
      rw [hadd] at hcap'
      obtain rfl : st1 = st := Option.some.inj hcap'
      simp only [Option.some.injEq] at h
      subst h
      exact ⟨rfl, hcap, rfl⟩

/-- C4 witness: the invariant at the initial state, and the cap behavior at
a concrete capped state. -/
theorem c4_sequence_cap_witness :
    initialState.sequenceLength ≤ MAX_SEQUENCE ∧
    addToSequence wrng 1 stCap = some stCap ∧
    (stCapUI.gameState = GameState.USER_INPUT ∧ stCapUI.sequenceLength = MAX_SEQUENCE ∧
      stCapUI.sequence = stCap.sequence) :=
  ⟨(c4_sequence_cap.1) initialState Reachable.init,
   (c4_sequence_cap.2.1) wrng 1 stCap rfl,
   (c4_sequence_cap.2.2) wrng btnStart 1 0 stCap stCapUI rfl rfl (by decide)⟩

/-- C5: a press arriving less than debounceDelay after the last accepted one
is ignored: readButton reports nothing, so the USER_INPUT tick leaves the
whole state (cursor included) unchanged; conversely an accepted press
requires the window to have elapsed and re-arms the timer at the press
time, so two consecutively accepted presses are at least debounceDelay
apart. -/
theorem c5_debounce (btn : Nat → Nat → Bool) (fuel : Nat) :
    (∀ (rng : Nat → Fin 4) (now : Nat) (st : GameSt),
      st.gameState = GameState.USER_INPUT →
      now - st.lastButtonPress < debounceDelay →
      loopTick rng btn fuel now st = some st) ∧
    (∀ now last i last' t',
      readButton btn fuel now last = some (some i, last', t') →
      debounceDelay ≤ now - last ∧ last' = now) ∧
    (∀ t1 t2 last0 i1 i2 l1 l2 r1 r2,
      readButton btn fuel t1 last0 = some (some i1, l1, r1) →
      readButton btn fuel t2 l1 = some (some i2, l2, r2) →
      t1 + debounceDelay ≤ t2) := by
  refine ⟨?_, ?_, ?_⟩
  · intro rng now st hgs hdb
    rw [loopTick_ui hgs, readButton_debounce hdb]
  · intro now last i last' t' h
    have := readButton_accept h
    exact ⟨this.1, this.2.1⟩
  · intro t1 t2 last0 i1 i2 l1 l2 r1 r2 h1 h2
    have ha := readButton_accept h1
    have hb := readButton_accept h2
    have hdd : debounceDelay = 200 := rfl
    omega

/-- C5 witness: a press 100 ms after the last accepted one changes nothing;
accepted presses at 300 and 600 ms are 200 ms apart. -/
theorem c5_debounce_witness :
    loopTick wrng btn5 30 100 stR = some stR ∧
    (debounceDelay ≤ 300 - 0 ∧ 300 = 300) ∧
    300 + debounceDelay ≤ 600 :=
  ⟨(c5_debounce btn5 30).1 wrng 100 stR rfl (by decide),
   (c5_debounce btn5 30).2.1 300 0 0 300 310 (by decide),
   (c5_debounce btn5 30).2.2 300 600 0 0 0 300 600 310 610 (by decide) (by decide)⟩

/-- C7: a recognized press busy-waits until a released sample before
returning (one logical event per press-and-release), and the start wait in
WAIT_FOR_START follows the same press-then-wait-for-release protocol but
is not gated by the debounce timer: a start press is accepted even within
debounceDelay of the last accepted press. -/
theorem c7_press_release (btn : Nat → Nat → Bool) (fuel : Nat) :
    (∀ (press : Nat → Bool) (t r : Nat), waitRelease press fuel t = some r →
      press r = false ∧ t ≤ r) ∧
    (∀ now last i last' t', readButton btn fuel now last = some (some i, last', t') →
      btn t' i = false ∧ now ≤ t') ∧
    (∀ (rng : Nat → Fin 4) (now : Nat) (st : GameSt) (t' : Nat),
      st.gameState = GameState.WAIT_FOR_START →
      btn now 2 = true → waitRelease (fun t => btn t 2) fuel now = some t' →
      now - st.lastButtonPress < debounceDelay →
      (loopTick rng btn fuel now st).map (fun s => (s.gameState, s.sequenceLength)) =
        some (GameState.PLAY_SEQUENCE, 0)) := by
  refine ⟨?_, ?_, ?_⟩
  · intro press t r h
    exact waitRelease_released fuel t r h
  · intro now last i last' t' h
    have ha := readButton_accept h
    have hw := waitRelease_released fuel now t' ha.2.2
    exact ⟨hw.1, hw.2⟩
  · intro rng now st t' hgs hpress hrel _
    rw [loopTick_wait hgs]
    unfold waitForStartButton
    rw [if_pos hpress, hrel]
    rfl

/-- C7 witness: with buttons held through 200 ms, reads return only at the
released sample 210, and the start press at 100 ms is accepted although the
debounce timer (last accepted press at 0) has not elapsed. -/
theorem c7_press_release_witness :
    (btnHeld 210 0 = false ∧ 0 ≤ 210) ∧
    (btnHeld 210 0 = false ∧ 200 ≤ 210) ∧
    (loopTick wrng btnHeld 30 100 stWS).map (fun s => (s.gameState, s.sequenceLength)) =
      some (GameState.PLAY_SEQUENCE, 0) :=
  ⟨(c7_press_release btnHeld 30).1 (fun t => btnHeld t 0) 0 210 (by decide),
   (c7_press_release btnHeld 30).2.1 200 0 0 200 210 (by decide),
   (c7_press_release btnHeld 30).2.2 wrng 100 stWS 210 rfl (by decide) (by decide) (by decide)⟩

/-- C8: the observable timing constants are exactly as specified: the
debounce interval is 200 ms; each played color carries a 500 ms tone and a
500 ms lit delay; sequence playback interleaves the 500 ms per-color delay
with a 300 ms gap after each color; a successful full-sequence completion
is followed by a 1000 ms pause. -/
theorem c8_timing_constants :
    debounceDelay = 200 ∧
    (∀ i, (playColorEvents i).filter Ev.isDelay = [Ev.delayEv 500]) ∧
    (∀ i f d, Ev.toneEv f d ∈ playColorEvents i → d = 500) ∧
    (∀ st, (playSequenceEvents st).filter Ev.isDelay =
      (List.range st.sequenceLength).flatMap (fun _ => [Ev.delayEv 500, Ev.delayEv 300])) ∧
    (∀ st input, input = st.sequence.getD st.userInputIndex 0 →
      st.sequenceLength ≤ st.userInputIndex + 1 →
      ((uiStep st input).2).filter Ev.isDelay = [Ev.delayEv 500, Ev.delayEv 1000]) := by
  refine ⟨rfl, fun i => rfl, ?_, ?_, ?_⟩
  · intro i f d h
    simp only [playColorEvents, List.mem_cons, List.not_mem_nil, or_false] at h
    rcases h with h | h | h | h
    · exact absurd h (by simp)
    · exact (Ev.toneEv.inj h).2
    · exact absurd h (by simp)
    · exact absurd h (by simp)
  · intro st
    unfold playSequenceEvents
    rw [List.filter_flatMap]
    exact List.flatMap_congr (fun x _ => rfl)
  · intro st input hin hdone
    subst hin
    rw [uiStep_match_done hdone]
    rfl

/-- C8 witness: the completion-pause clause at a concrete one-color state. -/
theorem c8_timing_constants_witness :
    ((uiStep stR 0).2).filter Ev.isDelay = [Ev.delayEv 500, Ev.delayEv 1000] ∧ 500 = 500 :=
  ⟨c8_timing_constants.2.2.2.2 stR 0 (by decide) (by decide),
   c8_timing_constants.2.2.1 0 310 500 (by decide)⟩

/-- C9: whenever a reachable state is in USER_INPUT, the cursor is a valid
index into the stored sequence (so the comparison against
sequence[userInputIndex] reads in bounds); the cursor is reset to 0 on every
entry to USER_INPUT from PLAY_SEQUENCE, and the state is left for
PLAY_SEQUENCE as soon as the cursor reaches sequenceLength. -/
theorem c9_cursor_bounds :
    (∀ st, Reachable st → st.gameState = GameState.USER_INPUT →
      st.userInputIndex < st.sequenceLength ∧ st.sequenceLength ≤ st.sequence.length) ∧
    (∀ (rng : Nat → Fin 4) (btn : Nat → Nat → Bool) (fuel now : Nat) (st st' : GameSt),
      st.gameState = GameState.PLAY_SEQUENCE → loopTick rng btn fuel now st = some st' →
      st'.userInputIndex = 0 ∧ st'.gameState = GameState.USER_INPUT) ∧
    (∀ st, st.gameState = GameState.USER_INPUT →
      st.sequenceLength ≤ st.userInputIndex + 1 →
      (uiStep st (st.sequence.getD st.userInputIndex 0)).1.gameState =
        GameState.PLAY_SEQUENCE) := by
  refine ⟨?_, ?_, ?_⟩
  · intro st hr hgs
    obtain ⟨h1, h2, h3⟩ := reachable_gameInv hr
    refine ⟨h3 hgs, ?_⟩
    rw [h2]
    exact h1
  · intro rng btn fuel now st st' hgs h
    rw [loopTick_play hgs] at h
    cases hadd : addToSequence rng fuel st with
    | none => rw [hadd] at h; exact absurd h (by simp)
    | some st1 =>
      rw [hadd] at h
      simp only [Option.some.injEq] at h
      subst h
      exact ⟨rfl, rfl⟩
  · intro st hgs hdone
    rw [uiStep_match_done hdone]

/-- C9 witness: a concrete reachable USER_INPUT state (reached by welcome,
start press, and first PLAY_SEQUENCE tick) with its cursor in bounds. -/
theorem c9_cursor_bounds_witness :
    (stR.userInputIndex < stR.sequenceLength ∧ stR.sequenceLength ≤ stR.sequence.length) ∧
    (stR.userInputIndex = 0 ∧ stR.gameState = GameState.USER_INPUT) ∧
    (uiStep stR (stR.sequence.getD stR.userInputIndex 0)).1.gameState =
      GameState.PLAY_SEQUENCE := by
  have r1 : Reachable stWS := Reachable.step wrng btnStart 2 0 Reachable.init (by decide)
  have r2 : Reachable startSt := Reachable.step wrng btnStart 2 0 r1 (by decide)
  have r3 : Reachable stR := Reachable.step wrng btnStart 2 0 r2 (by decide)
  exact ⟨c9_cursor_bounds.1 stR r3 rfl,
         c9_cursor_bounds.2.1 wrng btnStart 2 0 startSt stR rfl (by decide),
         c9_cursor_bounds.2.2 stR rfl (by decide)⟩

/-- C10: completing GAME_OVER only moves the machine to WAIT_FOR_START,
leaving the stored sequence and its length untouched (the animation only
drives LEDs and the buzzer); the length is zeroed only by an accepted
start press in WAIT_FOR_START, so the previous round's sequence persists
until the next start press. -/
theorem c10_gameover_frame :
    (∀ (rng : Nat → Fin 4) (btn : Nat → Nat → Bool) (fuel now : Nat) (st : GameSt),
      st.gameState = GameState.GAME_OVER →
      loopTick rng btn fuel now st = some { st with gameState := GameState.WAIT_FOR_START }) ∧
    (∀ (rng : Nat → Fin 4) (btn : Nat → Nat → Bool) (fuel now : Nat) (st st' : GameSt),
      loopTick rng btn fuel now st = some st' →
      st'.sequenceLength = 0 → 0 < st.sequenceLength →
      st.gameState = GameState.WAIT_FOR_START ∧ st'.gameState = GameState.PLAY_SEQUENCE) := by
  constructor
  · intro rng btn fuel now st hgs
    exact loopTick_gameover hgs
  · intro rng btn fuel now st st' h hz hpos
    cases hgs : st.gameState with
    | WELCOME =>
      rw [loopTick_welcome hgs] at h
      simp only [Option.some.injEq] at h
      subst h
      dsimp only at hz
      omega
    | WAIT_FOR_START =>
      rw [loopTick_wait hgs] at h
      cases hw : waitForStartButton btn fuel now st.prevMillis st.ledState with
      | none => rw [hw] at h; exact absurd h (by simp)
      | some q =>
        obtain ⟨pressed, prev', led', t''⟩ := q
        rw [hw] at h
        dsimp only at h
        cases pressed with
        | true =>
          rw [if_pos rfl] at h
          simp only [Option.some.injEq] at h
          subst h
          exact ⟨rfl, rfl⟩
        | false =>
          rw [if_neg (by simp)] at h
          simp only [Option.some.injEq] at h
          subst h
          dsimp only at hz
          omega
    | PLAY_SEQUENCE =>
      rw [loopTick_play hgs] at h
      cases hadd : addToSequence rng fuel st with
      | none => rw [hadd] at h; exact absurd h (by simp)
      | some st1 =>
        rw [hadd] at h
        simp only [Option.some.injEq] at h
        subst h
        dsimp only at hz
        by_cases hlen : st.sequenceLength < MAX_SEQUENCE
        · obtain ⟨c, pos', _, rfl⟩ := addToSequence_lt hlen hadd
          dsimp only at hz
          omega
        · have hcap := @addToSequence_cap rng fuel st hlen
          rw [hadd] at hcap
          obtain rfl : st1 = st := Option.some.inj hcap
          omega
    | USER_INPUT =>
      rw [loopTick_ui hgs] at h
      cases hrb : readButton btn fuel now st.lastButtonPress with
      | none => rw [hrb] at h; exact absurd h (by simp)
      | some q =>
        obtain ⟨res, last', t''⟩ := q
        rw [hrb] at h
        cases res with
        | none =>
          simp only [Option.some.injEq] at h
          subst h
          dsimp only at hz
          omega
        | some i =>
          simp only [Option.some.injEq] at h
          subst h
          rw [uiStep_fst_sequenceLength] at hz
          dsimp only at hz
          omega
    | GAME_OVER =>
      rw [loopTick_gameover hgs] at h
      simp only [Option.some.injEq] at h
      subst h
      dsimp only at hz
      omega

/-- C10 witness: a concrete GAME_OVER tick preserving the stored round, and
a concrete accepted start press being the zeroing transition. -/
theorem c10_gameover_frame_witness :
    loopTick wrng btnStart 2 0 stGO = some { stGO with gameState := GameState.WAIT_FOR_START } ∧
    (stWS1.gameState = GameState.WAIT_FOR_START ∧ stPS0.gameState = GameState.PLAY_SEQUENCE) :=
  ⟨c10_gameover_frame.1 wrng btnStart 2 0 stGO rfl,
   c10_gameover_frame.2 wrng btnStart 2 0 stWS1 stPS0 (by decide) rfl (by decide)⟩

/-- Writing the element already stored leaves a replicate list unchanged. -/
theorem set_replicate_self {α : Type} (a : α) :
    ∀ (k i : Nat), (List.replicate k a).set i a = List.replicate k a := by
  intro k
  induction k with
  | zero => intro i; rfl
  | succ k ih =>
    intro i
    cases i with
    | zero => rfl
    | succ i =>
      simp only [List.replicate_succ, List.set_cons_succ]
      rw [ih]

/-- When the current draw is not 2, the do/while returns it at once. -/
theorem drawColor_step_ne {rng : Nat → Fin 4} {pos : Nat} (isFirst : Bool) (fuel : Nat)
    (h : (rng pos).val ≠ 2) :
    drawColor rng isFirst (fuel + 1) pos = some (rng pos, pos + 1) := by
  unfold drawColor
  rw [show ((rng pos).val == 2) = false from beq_eq_false_iff_ne.mpr h, Bool.and_false]
  rw [if_neg (by simp)]

/-- One perfect cycle below the cap grows the round state by one. -/
theorem cycle_step (n : Nat) (hn : n < MAX_SEQUENCE) :
    playCycle wrng 1 0 (cfgCycle n) = some (cfgCycle (n + 1)) := by
  have hv : (wrng ((cfgCycle n).rngPos)).val = 0 := rfl
  have hd : drawColor wrng ((cfgCycle n).sequenceLength == 0) 1 (cfgCycle n).rngPos =
      some (wrng (cfgCycle n).rngPos, (cfgCycle n).rngPos + 1) :=
    drawColor_step_ne _ 0 (by rw [hv]; omega)
  have hadd : addToSequence wrng 1 (cfgCycle n) =
      some { cfgCycle n with
              sequence := List.replicate MAX_SEQUENCE 0
              sequenceLength := n + 1
              rngPos := n + 1 } := by
    unfold addToSequence
    rw [if_pos (show (cfgCycle n).sequenceLength < MAX_SEQUENCE from hn)]
    rw [hd]
    dsimp only [cfgCycle]
    rw [show (wrng n).val = 0 from rfl, set_replicate_self]
  unfold playCycle
  rw [hadd]
  dsimp only [cfgCycle]
  have hr := runUI_match (n + 1) (Nat.succ_pos n)
    { sequence := List.replicate MAX_SEQUENCE 0
      sequenceLength := n + 1
      userInputIndex := 0
      gameState := GameState.USER_INPUT
      lastButtonPress := 0
      prevMillis := 0
      ledState := false
      rngPos := n + 1 } rfl (by dsimp only; omega)
  dsimp only at hr
  rw [hr]

/-- A perfect cycle at the cap returns to PLAY_SEQUENCE without growing. -/
theorem cycle_cap : playCycle wrng 1 0 (cfgCycle MAX_SEQUENCE) = some (cfgCycle MAX_SEQUENCE) := by
  unfold playCycle
  rw [@addToSequence_cap wrng 1 (cfgCycle MAX_SEQUENCE) (by decide)]
  dsimp only [cfgCycle]
  have hr := runUI_match MAX_SEQUENCE (by decide)
    { sequence := List.replicate MAX_SEQUENCE 0
      sequenceLength := MAX_SEQUENCE
      userInputIndex := 0
      gameState := GameState.USER_INPUT
      lastButtonPress := 0
      prevMillis := 0
      ledState := false
      rngPos := MAX_SEQUENCE } rfl (by dsimp only; omega)
  dsimp only at hr
  rw [hr]

/-- The round state after n perfect cycles, up to and including the cap. -/
theorem iterCycles_cfg : ∀ n, n ≤ MAX_SEQUENCE → iterCycles wrng 1 0 n = some (cfgCycle n) := by
  intro n
  induction n with
  | zero => intro _; rfl
  | succ n ih =>
    intro hle
    have h1 : iterCycles wrng 1 0 n = some (cfgCycle n) := ih (by omega)
    unfold iterCycles
    rw [h1]
    dsimp only
    exact cycle_step n (by omega)

/-- C1 (amended at the capacity cap): a round cycle played with a scripted
input stream matching the generated Sequence exactly always returns to
PLAY_SEQUENCE and never passes through GAME_OVER; the Sequence grows by
exactly one element per cycle while below MAX_SEQUENCE and stays at
MAX_SEQUENCE once the cap is reached. -/
theorem c1_perfect_cycle (rng : Nat → Fin 4) (fuel now : Nat) (st st' : GameSt)
    (hgs : st.gameState = GameState.PLAY_SEQUENCE)
    (hle : st.sequenceLength ≤ MAX_SEQUENCE)
    (hc : playCycle rng fuel now st = some st') :
    st'.gameState = GameState.PLAY_SEQUENCE ∧
    st'.sequenceLength = min (st.sequenceLength + 1) MAX_SEQUENCE ∧
    ∀ s ∈ playCycleStates rng fuel now st, s.gameState ≠ GameState.GAME_OVER := by
  unfold playCycle at hc
  unfold playCycleStates
  cases hadd : addToSequence rng fuel st with
  | none =>
    rw [hadd] at hc
    exact absurd hc (by simp)
  | some st1 =>
    rw [hadd] at hc
    dsimp only at hc ⊢
    simp only [Option.some.injEq] at hc
    subst hc
    have hMAX : MAX_SEQUENCE = 100 := rfl
    by_cases hlen : st.sequenceLength < MAX_SEQUENCE
    · obtain ⟨c, pos', _, rfl⟩ := addToSequence_lt hlen hadd
      have hr := runUI_match (st.sequenceLength + 1) (Nat.succ_pos _)
        { st with
            sequence := st.sequence.set st.sequenceLength c.val
            sequenceLength := st.sequenceLength + 1
            rngPos := pos'
            userInputIndex := 0
            lastButtonPress := now
            gameState := GameState.USER_INPUT } rfl (by dsimp only; omega)
      have hs := runUIStates_match (st.sequenceLength + 1)
        { st with
            sequence := st.sequence.set st.sequenceLength c.val
            sequenceLength := st.sequenceLength + 1
            rngPos := pos'
            userInputIndex := 0
            lastButtonPress := now
            gameState := GameState.USER_INPUT } rfl (by dsimp only; omega)
      dsimp only at hr hs
      refine ⟨?_, ?_, ?_⟩
      · rw [hr]
      · rw [hr]
        dsimp only
        omega
      · intro s hsm
        rcases List.mem_cons.mp hsm with rfl | hsm
        · rw [hgs]
          simp
        · rcases hs s hsm with h | h <;> rw [h] <;> simp
    · have hcap := @addToSequence_cap rng fuel st hlen
      rw [hadd] at hcap
      obtain rfl : st = st1 := (Option.some.inj hcap).symm
      have hpos : 0 < st.sequenceLength := by omega
      have hr := runUI_match st.sequenceLength hpos
        { st with
            userInputIndex := 0
            lastButtonPress := now
            gameState := GameState.USER_INPUT } rfl (by dsimp only; omega)
      have hs := runUIStates_match st.sequenceLength
        { st with
            userInputIndex := 0
            lastButtonPress := now
            gameState := GameState.USER_INPUT } rfl (by dsimp only; omega)
      dsimp only at hr hs
      refine ⟨?_, ?_, ?_⟩
      · rw [hr]
      · rw [hr]
        dsimp only
        omega
      · intro s hsm
        rcases List.mem_cons.mp hsm with rfl | hsm
        · rw [hgs]
          simp
        · rcases hs s hsm with h | h <;> rw [h] <;> simp

/-- C1 witness: the first perfect cycle from the freshly-started state. -/
theorem c1_perfect_cycle_witness :
    (cfgCycle 1).gameState = GameState.PLAY_SEQUENCE ∧
    (cfgCycle 1).sequenceLength = min (startSt.sequenceLength + 1) MAX_SEQUENCE ∧
    ∀ s ∈ playCycleStates wrng 1 0 startSt, s.gameState ≠ GameState.GAME_OVER :=
  c1_perfect_cycle wrng 1 0 startSt (cfgCycle 1) rfl (by decide)
    (by rw [show startSt = cfgCycle 0 from rfl]; exact cycle_step 0 (by decide))

/-- C1 counterexample to the claim as stated: after 100 perfect cycles the
round is at the cap, and the 101st perfect cycle leaves the state (hence the
Sequence length) unchanged at 100 instead of growing by one, while still
returning to PLAY_SEQUENCE and never entering GAME_OVER. -/
theorem c1_counterexample :
    iterCycles wrng 1 0 MAX_SEQUENCE = some (cfgCycle MAX_SEQUENCE) ∧
    iterCycles wrng 1 0 (MAX_SEQUENCE + 1) = some (cfgCycle MAX_SEQUENCE) ∧
    (cfgCycle MAX_SEQUENCE).sequenceLength = MAX_SEQUENCE := by
  refine ⟨iterCycles_cfg MAX_SEQUENCE (Nat.le_refl _), ?_, rfl⟩
  unfold iterCycles
  rw [iterCycles_cfg MAX_SEQUENCE (Nat.le_refl _)]
  dsimp only
  exact cycle_cap

/-- A scripted prefix that agrees with the stored sequence is exactly the
corresponding slice of the stored sequence. -/
theorem take_eq_matching_slice {st : GameSt} {inputs : List Nat} {k : Nat} (j : Nat)
    (hj : j ≤ k) (hlen : k < inputs.length)
    (hmatch : ∀ m, m < k → inputs.getD m 0 = st.sequence.getD m 0) :
    inputs.take j = (List.range' 0 j).map (fun i => st.sequence.getD i 0) := by
  apply List.ext_getElem
  · simp only [List.length_take, List.length_map, List.length_range']
    omega
  · intro n h1 h2
    rw [List.getElem_take]
    rw [List.getElem_map, List.getElem_range']
    have hn : n < j := by
      simp only [List.length_take] at h1
      omega
    have hnl : n < inputs.length := by omega
    have := hmatch n (by omega)
    rw [List.getD_eq_getElem _ _ hnl] at this
    simpa using this

/-- C2: starting USER_INPUT with the cursor at 0, if the scripted stream
first deviates from the stored sequence at position k (with k inside the
sequence), the machine is still in USER_INPUT after each of the first k
inputs, transitions to GAME_OVER exactly on consuming the k-th input
(right after that channel's light-and-tone feedback), and the remaining
scripted inputs change nothing. -/
theorem c2_mismatch_gameover (st : GameSt) (inputs : List Nat) (k : Nat)
    (hgs : st.gameState = GameState.USER_INPUT)
    (hidx : st.userInputIndex = 0)
    (hk : k < st.sequenceLength)
    (hlen : k < inputs.length)
    (hmatch : ∀ j, j < k → inputs.getD j 0 = st.sequence.getD j 0)
    (hdiff : inputs.getD k 0 ≠ st.sequence.getD k 0) :
    (runUI st inputs).gameState = GameState.GAME_OVER ∧
    runUI st inputs = runUI st (inputs.take (k + 1)) ∧
    (∀ j, j ≤ k → (runUI st (inputs.take j)).gameState = GameState.USER_INPUT) ∧
    (uiStep (runUI st (inputs.take k)) (inputs.getD k 0)).2 =
      playColorEvents (inputs.getD k 0) := by
  have hrunj : ∀ j, j ≤ k → runUI st (inputs.take j) = { st with userInputIndex := j } := by
    intro j hj
    rw [take_eq_matching_slice j hj hlen hmatch]
    have hm := runUI_match_lt j st hgs (by omega)
    rw [hidx] at hm
    simp only [Nat.zero_add] at hm
    exact hm
  have htk1 : inputs.take (k + 1) = inputs.take k ++ [inputs.getD k 0] := by
    rw [List.take_succ]
    rw [List.getElem?_eq_getElem hlen]
    rw [List.getD_eq_getElem _ _ hlen]
    rfl
  have hdiff' : inputs.getD k 0 ≠
      ({ st with userInputIndex := k } : GameSt).sequence.getD
        ({ st with userInputIndex := k } : GameSt).userInputIndex 0 := hdiff
  have hgo : runUI st (inputs.take (k + 1)) =
      { st with userInputIndex := k, gameState := GameState.GAME_OVER } := by
    rw [htk1, runUI_append, hrunj k (Nat.le_refl k)]
    simp only [runUI]
    rw [if_pos (show ({ st with userInputIndex := k } : GameSt).gameState =
      GameState.USER_INPUT from hgs)]
    rw [uiStep_mismatch hdiff']
  have hfull : runUI st inputs =
      { st with userInputIndex := k, gameState := GameState.GAME_OVER } := by
    conv_lhs => rw [← List.take_append_drop (k + 1) inputs]
    rw [runUI_append, hgo]
    exact runUI_stop (by simp) _
  refine ⟨?_, ?_, ?_, ?_⟩
  · rw [hfull]
  · rw [hfull, hgo]
  · intro j hj
    rw [hrunj j hj]
    exact hgs
  · rw [hrunj k (Nat.le_refl k)]
    rw [uiStep_mismatch hdiff']

/-- C2 witness: two stored colors 0, 1; the script 0, 3, 2, 2 matches at
position 0 and deviates at position 1, so the second input triggers
GAME_OVER and the trailing inputs are ignored. -/
theorem c2_mismatch_gameover_witness :
    (runUI stUI2 [0, 3, 2, 2]).gameState = GameState.GAME_OVER ∧
    runUI stUI2 [0, 3, 2, 2] = runUI stUI2 ([0, 3, 2, 2].take 2) ∧
    (∀ j, j ≤ 1 → (runUI stUI2 ([0, 3, 2, 2].take j)).gameState = GameState.USER_INPUT) ∧
    (uiStep (runUI stUI2 ([0, 3, 2, 2].take 1)) ([0, 3, 2, 2].getD 1 0)).2 =
      playColorEvents ([0, 3, 2, 2].getD 1 0) :=
  c2_mismatch_gameover stUI2 [0, 3, 2, 2] 1 rfl rfl (by decide) (by decide)
    (by decide) (by decide)

/-- C6 (amended): the WAIT_FOR_START blink is keyed off the stored
last-toggle timestamp: a polling tick toggles exactly when at least
blinkInterval has elapsed since the stored timestamp, so consecutive
toggles are at least blinkInterval apart and over any window of T ms the
number of toggles is at most T / blinkInterval (count * interval <= T);
with sparse polling ticks the count can be far below T / blinkInterval, so
the approximation toggle count = T / interval holds only when ticks come
at least as often as the interval, not for every polling schedule. -/
theorem c6_blink_toggle :
    (∀ (ticks : List Nat) (prev : Nat) (led : Bool),
      List.Chain' (fun a b => a + blinkInterval ≤ b) (prev :: blinkRun ticks prev led)) ∧
    (∀ (ticks : List Nat) (prev : Nat) (led : Bool) (T : Nat),
      (∀ t ∈ ticks, t ≤ prev + T) →
      (blinkRun ticks prev led).length * blinkInterval ≤ T) ∧
    (∀ (btn : Nat → Nat → Bool) (fuel t prev : Nat) (led : Bool), btn t 2 = false →
      waitForStartButton btn fuel t prev led =
        some (false, (if t - prev ≥ blinkInterval then t else prev),
              (if t - prev ≥ blinkInterval then !led else led), t)) :=
  ⟨blinkRun_chain, blinkRun_count,
   fun _ _ _ _ _ hb => waitForStartButton_tick hb⟩

/-- C6 witness: dense ticks every 300 ms toggle twice within 600 ms, and an
unpressed poll at 5 ms only updates the toggle state. -/
theorem c6_blink_toggle_witness :
    (blinkRun [0, 300, 600] 0 false).length * blinkInterval ≤ 600 ∧
    waitForStartButton btnStart 1 5 0 false =
      some (false, (if 5 - 0 ≥ blinkInterval then 5 else 0),
            (if 5 - 0 ≥ blinkInterval then !false else false), 5) :=
  ⟨c6_blink_toggle.2.1 [0, 300, 600] 0 false 600 (by decide),
   c6_blink_toggle.2.2 btnStart 1 5 0 false (by decide)⟩

/-- C6 counterexample to the claim as stated: with polling ticks only at 0
and 10000 ms, the window of T = 10000 ms sees exactly one toggle, nowhere
near T / interval = 33 - the toggle count does depend on the polling
schedule. -/
theorem c6_counterexample :
    blinkRun [0, 10000] 0 false = [10000] ∧
    (blinkRun [0, 10000] 0 false).length = 1 ∧
    10000 / blinkInterval = 33 := by
  refine ⟨?_, ?_, ?_⟩ <;> decide
